import Mathlib

/-!
Shallow embedding of the `pixen` particle-sandbox physics engine
(src/vector.rs, src/pixel.rs, src/gravity_field.rs, src/config.rs,
src/main.rs).

Modelling conventions:
* `f32` values are modelled as real numbers; the source's exact guards
  (`mag != 0.` in `Vector::normalize`) are kept as exact comparisons.
* In-place mutation is modelled by value-returning functions.
* `Vec<T>` is modelled as `List T`; `Vec::push` appends at the end and
  `Vec::swap_remove` is modelled index-faithfully.
* External collaborators (mouse/keyboard polling, config file reload,
  the RNG-driven pixel repopulation, screen dimensions) deliver their
  per-frame results through an explicit `FrameInput` record / function
  arguments, as the spec designates them external to the core.
-/

namespace Pixen

noncomputable section

/-- 2D vector of float components (src/vector.rs, `Vector`). -/
@[ext]
structure Vector where
  x : ℝ
  y : ℝ

/-- `Vector::new` -/
def Vector.new (x y : ℝ) : Vector := ⟨x, y⟩

/-- `Vector::from`: both components set to the one scalar
(`from` is a reserved word in Lean, hence `fromNum`). -/
def Vector.fromNum (num : ℝ) : Vector := ⟨num, num⟩

/-- `Vector::coords` -/
def Vector.coords (coords : ℝ × ℝ) : Vector := ⟨coords.1, coords.2⟩

/-- Rust `f32::clamp(lo, hi)` on reals: `lo` when below `lo`, `hi` when
above `hi`, the input otherwise (callers here always have `lo ≤ hi`). -/
def fclamp (x lo hi : ℝ) : ℝ := if x < lo then lo else if x > hi then hi else x

/-- `Vector::limit`: clamps the `x` and `y` coordinates within
`0 - limit` and `0 + limit`. -/
def Vector.limit (v : Vector) (limit : ℝ) : Vector :=
  ⟨fclamp v.x (0 - limit) (0 + limit), fclamp v.y (0 - limit) (0 + limit)⟩

/-- `Vector::magnitude`: `sqrt(x*x + y*y)`. -/
def Vector.magnitude (v : Vector) : ℝ := Real.sqrt (v.x * v.x + v.y * v.y)

/-- The `Add` impl on `Vector` (componentwise; also models `AddAssign`). -/
instance : Add Vector := ⟨fun a b => ⟨a.x + b.x, a.y + b.y⟩⟩

/-- The `Sub` impl on `Vector` (componentwise; also models `SubAssign`). -/
instance : Sub Vector := ⟨fun a b => ⟨a.x - b.x, a.y - b.y⟩⟩

/-- The `Mul` impl on `Vector` (componentwise; also models `MulAssign`). -/
instance : Mul Vector := ⟨fun a b => ⟨a.x * b.x, a.y * b.y⟩⟩

/-- The `Div` impl on `Vector` (componentwise; also models `DivAssign`). -/
instance : Div Vector := ⟨fun a b => ⟨a.x / b.x, a.y / b.y⟩⟩

/-- `Vector::normalize`: divides both components by the magnitude,
guarded by an exact `mag != 0.` test. -/
def Vector.normalize (v : Vector) : Vector :=
  let mag := v.magnitude
  if mag ≠ 0 then v / Vector.new mag mag else v

/-- `Vector::distance`: Euclidean distance, written with `powf(2.)` in
the source, modelled as squaring. -/
def Vector.distance (v other : Vector) : ℝ :=
  Real.sqrt ((other.x - v.x) ^ 2 + (other.y - v.y) ^ 2)

/-- `Vector::clear`: sets the vector to `(0,0)`. -/
def Vector.clear (_v : Vector) : Vector := ⟨0, 0⟩

/-- A pixel: position and velocity (src/pixel.rs, `Pixel`). -/
@[ext]
structure Pixel where
  position : Vector
  velocity : Vector

/-- `Pixel::new`: given position, zero velocity. -/
def Pixel.new (position : Vector) : Pixel := ⟨position, Vector.fromNum 0⟩

/-- A gravity field (src/gravity_field.rs, `GravityField`). -/
structure GravityField where
  position : Vector
  aoe : ℝ
  strength : ℝ

/-- `GravityField::new` -/
def GravityField.new (position : Vector) (aoe strength : ℝ) : GravityField :=
  ⟨position, aoe, strength⟩

/-- `GravityField::in_aoe`: whether a vector is within the area of
effect (inclusive boundary). -/
def GravityField.in_aoe (f : GravityField) (vector : Vector) : Prop :=
  f.position.distance vector ≤ f.aoe

instance (f : GravityField) (v : Vector) : Decidable (f.in_aoe v) :=
  inferInstanceAs (Decidable (_ ≤ _))

/-- Physics parameters (src/config.rs, `PhysicsConfig`). -/
structure PhysicsConfig where
  max_velocity : ℝ
  friction : ℝ
  acceleration : ℝ
  gravity_field_aoe : ℝ

/-- The configuration record (src/config.rs, `GameConfig`); the graphics
and debug sections only drive rendering and are not part of the core. -/
structure GameConfig where
  num_pixels : ℕ
  phy : PhysicsConfig

/-- The game state (src/main.rs, `GameField`). The `rng` member only
feeds the external repopulation and brightness collaborators and is not
part of the physics state. -/
structure GameField where
  pixels : List Pixel
  gravity_fields : List GravityField
  is_paused : Bool
  config : GameConfig

/-- One frame's polled input together with the results the external
collaborators would deliver during this `update` call: `newConfig` for
`GameConfig::read_config` and `newPixels` for the RNG-driven
`populate_pixels`, both consumed only on the reset path. -/
structure FrameInput where
  mouse_pos : Vector
  lmb : Bool
  rmb : Bool
  mmb : Bool
  escape : Bool
  shift : Bool
  space : Bool
  newConfig : GameConfig
  newPixels : List Pixel

/-- Rust `iter().enumerate().find(pred)`: the first element satisfying
the predicate, with its index. -/
def enumFind (p : α → Bool) : List α → Option (ℕ × α)
  | [] => none
  | x :: xs =>
    if p x then some (0, x)
    else (enumFind p xs).map (fun ia => (ia.1 + 1, ia.2))

/-- Rust `Vec::swap_remove(i)`: overwrite index `i` with the last
element, then drop the last element (callers always have `i` in
bounds; an empty list is returned unchanged). -/
def swapRemove : List α → ℕ → List α
  | [], _ => []
  | a :: t, i =>
    ((a :: t).set i ((a :: t).getLast (List.cons_ne_nil a t))).dropLast

/-- The MMB branch of `GameField::update`: find the first field within
distance 10 of the query point and `swap_remove` it; no-op otherwise. -/
def removeFirstField (fields : List GravityField) (q : Vector) :
    List GravityField :=
  match enumFind (fun e => decide (e.position.distance q ≤ 10)) fields with
  | some (idx, _) => swapRemove fields idx
  | none => fields

/-- The mouse else-if chain at the top of `GameField::update`: LMB
pushes an attracting field, else RMB pushes a repelling field, else MMB
removes the first field under the cursor. -/
def GameField.handleMouse (s : GameField) (i : FrameInput) : GameField :=
  if i.lmb then
    { s with gravity_fields := s.gravity_fields ++
        [GravityField.new i.mouse_pos s.config.phy.gravity_field_aoe
          s.config.phy.acceleration] }
  else if i.rmb then
    { s with gravity_fields := s.gravity_fields ++
        [GravityField.new i.mouse_pos s.config.phy.gravity_field_aoe
          (-s.config.phy.acceleration)] }
  else if i.mmb then
    { s with gravity_fields := removeFirstField s.gravity_fields i.mouse_pos }
  else s

/-- The Escape branch of `GameField::update`: reload the config,
repopulate the pixels, and clear the fields unless shift is held. -/
def GameField.handleReset (s : GameField) (i : FrameInput) : GameField :=
  if i.escape then
    { s with config := i.newConfig, pixels := i.newPixels,
             gravity_fields := if !i.shift then [] else s.gravity_fields }
  else s

/-- The Space branch of `GameField::update`: toggle the paused flag. -/
def GameField.handleSpace (s : GameField) (i : FrameInput) : GameField :=
  if i.space then { s with is_paused := !s.is_paused } else s

/-- One iteration of the inner field loop of `GameField::update`: skip
the field when the pixel is out of its area of effect, otherwise add
the normalized direction towards the field scaled by its strength. -/
def fieldContribution (pos : Vector) (acc : Vector) (field : GravityField) :
    Vector :=
  if field.in_aoe pos then
    acc + (field.position - pos).normalize * Vector.fromNum field.strength
  else acc

/-- The acceleration accumulated over all fields for a pixel at `pos`
(the `acceleration` variable of `GameField::update`, cleared before the
loop). -/
def netAcceleration (fields : List GravityField) (pos : Vector) : Vector :=
  fields.foldl (fieldContribution pos) ⟨0, 0⟩

/-- The per-pixel body of the integration loop in `GameField::update`:
accumulate field acceleration, build friction from the normalized and
negated current velocity scaled by the friction coefficient, add both
to the velocity, limit it, and advance the position by it. -/
def tickPixel (phy : PhysicsConfig) (fields : List GravityField)
    (px : Pixel) : Pixel :=
  let acceleration := netAcceleration fields px.position
  let friction :=
    px.velocity.normalize * Vector.fromNum (-1) * Vector.fromNum phy.friction
  let v := (px.velocity + acceleration + friction).limit phy.max_velocity
  { position := px.position + v, velocity := v }

/-- `GameField::update`: mouse chain, then reset, then pause toggle;
when paused the function returns before the integration loop, otherwise
every pixel is ticked. -/
def GameField.update (s : GameField) (i : FrameInput) : GameField :=
  let s1 := s.handleMouse i
  let s2 := s1.handleReset i
  let s3 := s2.handleSpace i
  if s3.is_paused then s3
  else { s3 with
    pixels := s3.pixels.map (tickPixel s3.config.phy s3.gravity_fields) }

/-- The per-pixel body of `GameField::snake_bounds`: a coordinate above
the screen bound wraps to `0`, a coordinate below `0` wraps to the
bound, each axis independently. -/
def snakeBoundsPixel (w h : ℝ) (px : Pixel) : Pixel :=
  { px with position :=
      ⟨if px.position.x > w then 0
        else if px.position.x < 0 then w else px.position.x,
       if px.position.y > h then 0
        else if px.position.y < 0 then h else px.position.y⟩ }

/-- `GameField::snake_bounds` over the whole pixel list; the screen
width and height come from the external windowing host. -/
def GameField.snake_bounds (s : GameField) (w h : ℝ) : GameField :=
  { s with pixels := s.pixels.map (snakeBoundsPixel w h) }

theorem Vector.add_def (a b : Vector) : a + b = ⟨a.x + b.x, a.y + b.y⟩ := rfl

theorem Vector.sub_def (a b : Vector) : a - b = ⟨a.x - b.x, a.y - b.y⟩ := rfl

theorem Vector.mul_def (a b : Vector) : a * b = ⟨a.x * b.x, a.y * b.y⟩ := rfl

theorem Vector.div_def (a b : Vector) : a / b = ⟨a.x / b.x, a.y / b.y⟩ := rfl

theorem fclamp_mem (x lo hi : ℝ) (h : lo ≤ hi) :
    lo ≤ fclamp x lo hi ∧ fclamp x lo hi ≤ hi := by
  unfold fclamp
  split_ifs with h1 h2 <;> constructor <;> linarith

theorem limit_abs_le (v : Vector) (m : ℝ) (hm : 0 ≤ m) :
    |(v.limit m).x| ≤ m ∧ |(v.limit m).y| ≤ m := by
  have hx := fclamp_mem v.x (0 - m) (0 + m) (by linarith)
  have hy := fclamp_mem v.y (0 - m) (0 + m) (by linarith)
  constructor <;> rw [abs_le] <;> constructor <;>
    simp only [Vector.limit] <;> linarith [hx.1, hx.2, hy.1, hy.2]

theorem tickPixel_velocity_eq_limit (phy : PhysicsConfig)
    (fields : List GravityField) (px : Pixel) :
    (tickPixel phy fields px).velocity =
      (px.velocity + netAcceleration fields px.position +
        px.velocity.normalize * Vector.fromNum (-1) *
          Vector.fromNum phy.friction).limit phy.max_velocity := rfl

/-- Claim C5: normalizing the zero vector is a guarded no-op: the
`mag != 0` branch is not taken, both components stay exactly `0` and no
division happens (hence no NaN/infinity in the float original). -/
theorem normalize_zero_noop : Vector.normalize ⟨0, 0⟩ = ⟨0, 0⟩ := by
  simp [Vector.normalize, Vector.magnitude]

/-- Claim C7: `distance` is symmetric in its two arguments, and the
distance from any vector to itself is `0`. -/
theorem distance_symm_and_self_zero :
    ∀ a b : Vector, a.distance b = b.distance a ∧ a.distance a = 0 := by
  intro a b
  constructor
  · unfold Vector.distance
    ring_nf
  · simp [Vector.distance]

/-- Claim C2: with a non-negative configured maximum velocity, after any
positive number of integration ticks each component of a pixel's
velocity lies within the box from the negated maximum to the maximum:
the per-axis clamp is the last operation on the velocity in a tick. -/
theorem velocity_cap (phy : PhysicsConfig) (fields : List GravityField)
    (px : Pixel) (n : ℕ) (hm : 0 ≤ phy.max_velocity) (hn : 0 < n) :
    |((tickPixel phy fields)^[n] px).velocity.x| ≤ phy.max_velocity ∧
    |((tickPixel phy fields)^[n] px).velocity.y| ≤ phy.max_velocity := by
  obtain ⟨k, rfl⟩ : ∃ k, n = k + 1 := ⟨n - 1, by omega⟩
  rw [Function.iterate_succ_apply', tickPixel_velocity_eq_limit]
  exact limit_abs_le _ _ hm

/-- Witness for C2: one tick with no fields, max velocity `10`. -/
theorem velocity_cap_witness :
    |((tickPixel ⟨10, 0, 5, 100⟩ [])^[1] ⟨⟨0, 0⟩, ⟨3, 4⟩⟩).velocity.x| ≤ 10 ∧
    |((tickPixel ⟨10, 0, 5, 100⟩ [])^[1] ⟨⟨0, 0⟩, ⟨3, 4⟩⟩).velocity.y| ≤ 10 :=
  velocity_cap ⟨10, 0, 5, 100⟩ [] ⟨⟨0, 0⟩, ⟨3, 4⟩⟩ 1 (by norm_num) (by norm_num)

/-- Claim C4: the boundary pass handles each axis independently: a
coordinate strictly above the screen bound is set to `0`, one strictly
below `0` is set to the bound, anything else is untouched, and the
velocity is untouched; `GameField.snake_bounds` applies this to every
pixel. -/
theorem snake_bounds_wrap (w h : ℝ) (hw : 0 ≤ w) (hh : 0 ≤ h) :
    (∀ s : GameField,
      (s.snake_bounds w h).pixels = s.pixels.map (snakeBoundsPixel w h)) ∧
    ∀ px : Pixel,
      (px.position.x > w → (snakeBoundsPixel w h px).position.x = 0) ∧
      (px.position.x < 0 → (snakeBoundsPixel w h px).position.x = w) ∧
      (0 ≤ px.position.x → px.position.x ≤ w →
        (snakeBoundsPixel w h px).position.x = px.position.x) ∧
      (px.position.y > h → (snakeBoundsPixel w h px).position.y = 0) ∧
      (px.position.y < 0 → (snakeBoundsPixel w h px).position.y = h) ∧
      (0 ≤ px.position.y → px.position.y ≤ h →
        (snakeBoundsPixel w h px).position.y = px.position.y) ∧
      (snakeBoundsPixel w h px).velocity = px.velocity := by
  refine ⟨fun s => rfl, fun px => ?_⟩
  unfold snakeBoundsPixel
  refine ⟨fun h1 => ?_, fun h1 => ?_, fun h1 h2 => ?_,
          fun h1 => ?_, fun h1 => ?_, fun h1 h2 => ?_, rfl⟩ <;>
    simp only [] <;> split_ifs <;> first | rfl | linarith

/-- Witness for C4: with screen width and height `4`, a pixel at
`(5, -1)` (that is, `x = width + 1`, `y = -1`) wraps to `(0, 4)`. -/
theorem snake_bounds_wrap_witness :
    (snakeBoundsPixel 4 4 ⟨⟨5, -1⟩, ⟨0, 0⟩⟩).position.x = 0 ∧
    (snakeBoundsPixel 4 4 ⟨⟨5, -1⟩, ⟨0, 0⟩⟩).position.y = 4 := by
  have h := (snake_bounds_wrap 4 4 (by norm_num) (by norm_num)).2
    ⟨⟨5, -1⟩, ⟨0, 0⟩⟩
  exact ⟨h.1 (by norm_num), h.2.2.2.2.1 (by norm_num)⟩

theorem magnitude_pos (v : Vector) (hv : v.x ≠ 0 ∨ v.y ≠ 0) :
    0 < v.magnitude := by
  apply Real.sqrt_pos.mpr
  rcases hv with h | h
  · nlinarith [mul_self_pos.mpr h, mul_self_nonneg v.y]
  · nlinarith [mul_self_pos.mpr h, mul_self_nonneg v.x]

theorem normalize_of_ne_zero (v : Vector) (hv : v.magnitude ≠ 0) :
    v.normalize = ⟨v.x / v.magnitude, v.y / v.magnitude⟩ := by
  unfold Vector.normalize
  simp only [if_pos hv]
  rfl

/-- Claim C6: normalizing a non-zero vector yields a vector of
magnitude exactly `1` (the real-number model of "within float
epsilon"), with the component ratio preserved and the sign of each
component preserved. -/
theorem normalize_nonzero_unit (v : Vector) (hv : v.x ≠ 0 ∨ v.y ≠ 0) :
    v.normalize.magnitude = 1 ∧
    v.normalize.x * v.y = v.normalize.y * v.x ∧
    (0 < v.x → 0 < v.normalize.x) ∧ (v.x < 0 → v.normalize.x < 0) ∧
    (v.x = 0 → v.normalize.x = 0) ∧
    (0 < v.y → 0 < v.normalize.y) ∧ (v.y < 0 → v.normalize.y < 0) ∧
    (v.y = 0 → v.normalize.y = 0) := by
  have hm : 0 < v.magnitude := magnitude_pos v hv
  have heq := normalize_of_ne_zero v hm.ne'
  have hsq : v.magnitude * v.magnitude = v.x * v.x + v.y * v.y :=
    Real.mul_self_sqrt
      (add_nonneg (mul_self_nonneg v.x) (mul_self_nonneg v.y))
  refine ⟨?_, ?_, ?_, ?_, ?_, ?_, ?_, ?_⟩
  · rw [heq]
    show Real.sqrt (v.x / v.magnitude * (v.x / v.magnitude) +
      v.y / v.magnitude * (v.y / v.magnitude)) = 1
    have : v.x / v.magnitude * (v.x / v.magnitude) +
        v.y / v.magnitude * (v.y / v.magnitude) = 1 := by
      field_simp
      linarith [hsq]
    rw [this, Real.sqrt_one]
  · rw [heq]
    show v.x / v.magnitude * v.y = v.y / v.magnitude * v.x
    ring
  · rw [heq]; exact fun h => div_pos h hm
  · rw [heq]; exact fun h => div_neg_of_neg_of_pos h hm
  · rw [heq]; intro h; show v.x / v.magnitude = 0; rw [h, zero_div]
  · rw [heq]; exact fun h => div_pos h hm
  · rw [heq]; exact fun h => div_neg_of_neg_of_pos h hm
  · rw [heq]; intro h; show v.y / v.magnitude = 0; rw [h, zero_div]

/-- Witness for C6: the vector `(3, 4)` normalizes to a unit vector
with a positive `x` component. -/
theorem normalize_nonzero_unit_witness :
    (Vector.normalize ⟨3, 4⟩).magnitude = 1 ∧
    0 < (Vector.normalize ⟨3, 4⟩).x := by
  have h := normalize_nonzero_unit ⟨3, 4⟩ (Or.inl (by norm_num))
  exact ⟨h.1, h.2.2.1 (by norm_num)⟩

theorem enumFind_eq_none {α : Type _} (p : α → Bool) (l : List α) :
    enumFind p l = none ↔ ∀ x ∈ l, p x = false := by
  induction l with
  | nil => simp [enumFind]
  | cons a t ih =>
    by_cases hp : p a
    · simp [enumFind, hp]
    · simp [enumFind, hp, Option.map_eq_none', ih,
        Bool.not_eq_true _ ▸ hp]

theorem enumFind_eq_some {α : Type _} (p : α → Bool) (l : List α)
    (i : ℕ) (x : α) (h : enumFind p l = some (i, x)) :
    l[i]? = some x ∧ p x = true ∧
    ∀ j, j < i → ∀ y, l[j]? = some y → p y = false := by
  induction l generalizing i with
  | nil => simp [enumFind] at h
  | cons a t ih =>
    by_cases hp : p a
    · rw [enumFind, if_pos hp] at h
      have h' := Option.some.inj h
      have hi : i = 0 := (Prod.mk.injEq _ _ _ _ ▸ h').1.symm
      have hx : x = a := (Prod.mk.injEq _ _ _ _ ▸ h').2.symm
      subst hi; subst hx
      exact ⟨by simp, hp, fun j hj => by omega⟩
    · rw [enumFind, if_neg hp] at h
      rw [Option.map_eq_some'] at h
      obtain ⟨⟨i', x'⟩, h1, h2⟩ := h
      have hi : i = i' + 1 := (Prod.mk.injEq _ _ _ _ ▸ h2).1.symm
      have hx : x = x' := (Prod.mk.injEq _ _ _ _ ▸ h2).2.symm
      subst hi; subst hx
      obtain ⟨g1, g2, g3⟩ := ih i' h1
      refine ⟨by simpa using g1, g2, fun j hj y hy => ?_⟩
      cases j with
      | zero =>
        simp only [List.getElem?_cons_zero] at hy
        cases Option.some.inj hy
        exact Bool.not_eq_true (p a) ▸ hp
      | succ k =>
        simp only [List.getElem?_cons_succ] at hy
        exact g3 k (by omega) y hy

theorem swapRemove_length {α : Type _} (l : List α) (i : ℕ)
    (h : i < l.length) : (swapRemove l i).length + 1 = l.length := by
  cases l with
  | nil => simp at h
  | cons a t =>
    simp only [swapRemove, List.length_dropLast, List.length_set,
      List.length_cons]
    omega

theorem swapRemove_getElem_last {α : Type _} (l : List α) (i : ℕ)
    (h : i + 1 < l.length) : (swapRemove l i)[i]? = l[l.length - 1]? := by
  cases l with
  | nil => simp at h
  | cons a t =>
    have hne := List.cons_ne_nil a t
    rw [show swapRemove (a :: t) i =
        (((a :: t).set i ((a :: t).getLast hne)).dropLast) from rfl,
      List.dropLast_eq_take, List.length_set, List.getElem?_take,
      if_pos (by simpa using Nat.lt_sub_of_add_lt h),
      List.getElem?_set_eq_of_lt _ (by omega),
      ← List.getLast?_eq_getElem?, List.getLast?_eq_getLast_of_ne_nil hne]

theorem swapRemove_perm {α : Type _} (l : List α) (i : ℕ)
    (h : i < l.length) : (swapRemove l i).Perm (l.eraseIdx i) := by
  induction l generalizing i with
  | nil => simp at h
  | cons a t ih =>
    cases i with
    | zero =>
      cases t with
      | nil => simp [swapRemove]
      | cons b t' =>
        have hne : (b :: t') ≠ [] := List.cons_ne_nil b t'
        show (((a :: b :: t').set 0
          ((a :: b :: t').getLast (List.cons_ne_nil a (b :: t')))).dropLast
            ).Perm ((a :: b :: t').eraseIdx 0)
        rw [List.getLast_cons hne, List.set_cons_zero,
          List.dropLast_cons_of_ne_nil hne, List.eraseIdx_cons_zero]
        have hsplit := List.dropLast_append_getLast hne
        have hperm := (List.perm_append_singleton
          ((b :: t').getLast hne) (b :: t').dropLast).symm
        rw [hsplit] at hperm
        exact hperm
    | succ j =>
      cases t with
      | nil => simp at h
      | cons b t' =>
        have hne : (b :: t') ≠ [] := List.cons_ne_nil b t'
        have hj : j < (b :: t').length := by
          simpa [Nat.succ_lt_succ_iff] using h
        have hset_ne : (b :: t').set j ((b :: t').getLast hne) ≠ [] := by
          intro e
          have := congrArg List.length e
          simp at this
        show (((a :: b :: t').set (j + 1)
          ((a :: b :: t').getLast (List.cons_ne_nil a (b :: t')))).dropLast
            ).Perm ((a :: b :: t').eraseIdx (j + 1))
        rw [List.getLast_cons hne, List.set_cons_succ,
          List.dropLast_cons_of_ne_nil hset_ne, List.eraseIdx_cons_succ]
        exact List.Perm.cons a (ih j hj)

theorem removeFirstField_eq_none (fields : List GravityField) (q : Vector)
    (henum : enumFind (fun e => decide (e.position.distance q ≤ 10)) fields
      = none) : removeFirstField fields q = fields := by
  unfold removeFirstField
  rw [henum]

theorem removeFirstField_eq_some (fields : List GravityField) (q : Vector)
    (idx : ℕ) (f : GravityField)
    (henum : enumFind (fun e => decide (e.position.distance q ≤ 10)) fields
      = some (idx, f)) : removeFirstField fields q = swapRemove fields idx := by
  unfold removeFirstField
  rw [henum]

/-- The concrete removal scenario of C3: two fields at `(10,10)` and
`(12,10)`, query point `(11,10)`: the first field is removed, exactly
the second remains. -/
theorem removal_scenario_aux :
    removeFirstField
      [⟨⟨10, 10⟩, 100, 5⟩, ⟨⟨12, 10⟩, 100, 5⟩] ⟨11, 10⟩
      = [⟨⟨12, 10⟩, 100, 5⟩] := by
  have hd0 : Vector.distance ⟨10, 10⟩ ⟨11, 10⟩ ≤ 10 := by
    unfold Vector.distance
    have h1 : ((11 : ℝ) - 10) ^ 2 + ((10 : ℝ) - 10) ^ 2 = 1 := by norm_num
    rw [h1, Real.sqrt_one]
    norm_num
  have h0 : (decide (Vector.distance ⟨10, 10⟩ ⟨11, 10⟩ ≤ 10)) = true :=
    decide_eq_true hd0
  have henum : enumFind
      (fun e : GravityField =>
        decide (e.position.distance (⟨11, 10⟩ : Vector) ≤ 10))
      ([⟨⟨10, 10⟩, 100, 5⟩, ⟨⟨12, 10⟩, 100, 5⟩] : List GravityField)
      = some (0, (⟨⟨10, 10⟩, 100, 5⟩ : GravityField)) := by
    rw [enumFind, if_pos h0]
  rw [removeFirstField_eq_some _ _ _ _ henum]
  rfl

/-- Claim C3: a removal event removes exactly the lowest-index field
within distance `10` of the query point (one field, as a multiset), and
is a no-op when no field is in tolerance; concretely, on fields at
`(10,10)` and `(12,10)` with query `(11,10)`, the field at `(10,10)` is
removed and exactly the `(12,10)` field remains. -/
theorem removal_first_match (fields : List GravityField) (q : Vector) :
    (enumFind (fun e => decide (e.position.distance q ≤ 10)) fields = none →
      removeFirstField fields q = fields ∧
      ∀ f ∈ fields, ¬(f.position.distance q ≤ 10)) ∧
    (∀ idx f,
      enumFind (fun e => decide (e.position.distance q ≤ 10)) fields
        = some (idx, f) →
      fields[idx]? = some f ∧ f.position.distance q ≤ 10 ∧
      (∀ j, j < idx → ∀ g, fields[j]? = some g →
        ¬(g.position.distance q ≤ 10)) ∧
      (removeFirstField fields q).length + 1 = fields.length ∧
      (removeFirstField fields q).Perm (fields.eraseIdx idx)) ∧
    removeFirstField
      [⟨⟨10, 10⟩, 100, 5⟩, ⟨⟨12, 10⟩, 100, 5⟩] ⟨11, 10⟩
      = [⟨⟨12, 10⟩, 100, 5⟩] := by
  refine ⟨?_, ?_, removal_scenario_aux⟩
  · intro henum
    refine ⟨removeFirstField_eq_none fields q henum, fun f hf => ?_⟩
    have := (enumFind_eq_none _ fields).mp henum f hf
    exact decide_eq_false_iff_not.mp this
  · intro idx f henum
    obtain ⟨g1, g2, g3⟩ := enumFind_eq_some _ fields idx f henum
    obtain ⟨hlt, _⟩ := List.getElem?_eq_some.mp g1
    rw [removeFirstField_eq_some fields q idx f henum]
    exact ⟨g1, of_decide_eq_true g2,
      fun j hj g hg => decide_eq_false_iff_not.mp (g3 j hj g hg),
      swapRemove_length fields idx hlt, swapRemove_perm fields idx hlt⟩

/-- Witness for C3 (no-op branch): removing from an empty field list at
query point `(0,0)` changes nothing. -/
theorem removal_first_match_witness :
    removeFirstField [] ⟨0, 0⟩ = [] ∧
    ∀ f ∈ ([] : List GravityField), ¬(f.position.distance ⟨0, 0⟩ ≤ 10) :=
  (removal_first_match [] ⟨0, 0⟩).1 rfl

theorem swap_remove_order_aux1 :
    removeFirstField
      [⟨⟨0, 0⟩, 100, 5⟩, ⟨⟨1, 0⟩, 100, 5⟩, ⟨⟨2, 0⟩, 100, 5⟩] ⟨0, 0⟩
      = [⟨⟨2, 0⟩, 100, 5⟩, ⟨⟨1, 0⟩, 100, 5⟩] := by
  have hd : Vector.distance ⟨0, 0⟩ ⟨0, 0⟩ ≤ 10 := by
    unfold Vector.distance
    rw [show ((0 : ℝ) - 0) ^ 2 + ((0 : ℝ) - 0) ^ 2 = 0 by norm_num,
      Real.sqrt_zero]
    norm_num
  have henum : enumFind
      (fun e : GravityField =>
        decide (e.position.distance (⟨0, 0⟩ : Vector) ≤ 10))
      ([⟨⟨0, 0⟩, 100, 5⟩, ⟨⟨1, 0⟩, 100, 5⟩, ⟨⟨2, 0⟩, 100, 5⟩] :
        List GravityField)
      = some (0, (⟨⟨0, 0⟩, 100, 5⟩ : GravityField)) := by
    rw [enumFind, if_pos (decide_eq_true hd)]
  rw [removeFirstField_eq_some _ _ _ _ henum]
  rfl

theorem swap_remove_order_aux2 :
    removeFirstField
      [⟨⟨2, 0⟩, 100, 5⟩, ⟨⟨1, 0⟩, 100, 5⟩] ⟨0, 0⟩
      = [⟨⟨1, 0⟩, 100, 5⟩] := by
  have hd : Vector.distance ⟨2, 0⟩ ⟨0, 0⟩ ≤ 10 := by
    unfold Vector.distance
    rw [show ((0 : ℝ) - 2) ^ 2 + ((0 : ℝ) - 0) ^ 2 = 4 by norm_num,
      show (4 : ℝ) = 2 ^ 2 by norm_num,
      Real.sqrt_sq (by norm_num : (0 : ℝ) ≤ 2)]
    norm_num
  have henum : enumFind
      (fun e : GravityField =>
        decide (e.position.distance (⟨0, 0⟩ : Vector) ≤ 10))
      ([⟨⟨2, 0⟩, 100, 5⟩, ⟨⟨1, 0⟩, 100, 5⟩] : List GravityField)
      = some (0, (⟨⟨2, 0⟩, 100, 5⟩ : GravityField)) := by
    rw [enumFind, if_pos (decide_eq_true hd)]
  rw [removeFirstField_eq_some _ _ _ _ henum]
  rfl

/-- Claim C9: `swap_remove` does not preserve storage order: removing
index `i` (with a later element present) moves the last field into
index `i`; concretely, removing the field at `(0,0)` from the stored
order `[(0,0), (1,0), (2,0)]` leaves `[(2,0), (1,0)]`, so a second
removal event at the same point removes the `(2,0)` field (formerly
last) rather than the earlier-inserted `(1,0)` field. -/
theorem swap_remove_breaks_order (fields : List GravityField) (i : ℕ)
    (h : i + 1 < fields.length) :
    (swapRemove fields i).length + 1 = fields.length ∧
    (swapRemove fields i)[i]? = fields[fields.length - 1]? ∧
    removeFirstField
      [⟨⟨0, 0⟩, 100, 5⟩, ⟨⟨1, 0⟩, 100, 5⟩, ⟨⟨2, 0⟩, 100, 5⟩] ⟨0, 0⟩
      = [⟨⟨2, 0⟩, 100, 5⟩, ⟨⟨1, 0⟩, 100, 5⟩] ∧
    removeFirstField
      [⟨⟨2, 0⟩, 100, 5⟩, ⟨⟨1, 0⟩, 100, 5⟩] ⟨0, 0⟩
      = [⟨⟨1, 0⟩, 100, 5⟩] :=
  ⟨swapRemove_length fields i (by omega),
    swapRemove_getElem_last fields i h,
    swap_remove_order_aux1, swap_remove_order_aux2⟩

/-- Witness for C9: on a three-field list, removing index 0 yields a
two-field list whose index 0 holds the formerly last field. -/
theorem swap_remove_breaks_order_witness :
    (swapRemove
      ([⟨⟨0, 0⟩, 100, 5⟩, ⟨⟨1, 0⟩, 100, 5⟩, ⟨⟨2, 0⟩, 100, 5⟩] :
        List GravityField) 0).length + 1
      = ([⟨⟨0, 0⟩, 100, 5⟩, ⟨⟨1, 0⟩, 100, 5⟩, ⟨⟨2, 0⟩, 100, 5⟩] :
        List GravityField).length ∧
    (swapRemove
      ([⟨⟨0, 0⟩, 100, 5⟩, ⟨⟨1, 0⟩, 100, 5⟩, ⟨⟨2, 0⟩, 100, 5⟩] :
        List GravityField) 0)[0]?
      = ([⟨⟨0, 0⟩, 100, 5⟩, ⟨⟨1, 0⟩, 100, 5⟩, ⟨⟨2, 0⟩, 100, 5⟩] :
        List GravityField)[
          ([⟨⟨0, 0⟩, 100, 5⟩, ⟨⟨1, 0⟩, 100, 5⟩, ⟨⟨2, 0⟩, 100, 5⟩] :
            List GravityField).length - 1]? := by
  have h := swap_remove_breaks_order
    [⟨⟨0, 0⟩, 100, 5⟩, ⟨⟨1, 0⟩, 100, 5⟩, ⟨⟨2, 0⟩, 100, 5⟩] 0 (by norm_num)
  exact ⟨h.1, h.2.1⟩

theorem handleMouse_pixels (s : GameField) (i : FrameInput) :
    (s.handleMouse i).pixels = s.pixels := by
  unfold GameField.handleMouse
  split_ifs <;> rfl

theorem handleMouse_is_paused (s : GameField) (i : FrameInput) :
    (s.handleMouse i).is_paused = s.is_paused := by
  unfold GameField.handleMouse
  split_ifs <;> rfl

theorem handleReset_of_escape_false (s : GameField) (i : FrameInput)
    (hesc : i.escape = false) : s.handleReset i = s := by
  unfold GameField.handleReset
  rw [hesc]
  rfl

theorem handleSpace_pixels (s : GameField) (i : FrameInput) :
    (s.handleSpace i).pixels = s.pixels := by
  unfold GameField.handleSpace
  split_ifs <;> rfl

theorem handleSpace_fields (s : GameField) (i : FrameInput) :
    (s.handleSpace i).gravity_fields = s.gravity_fields := by
  unfold GameField.handleSpace
  split_ifs <;> rfl

/-- Claim C8: when the paused flag is set after the pause-toggle check,
`update` returns the state produced by the event-handling phase: the
integration tick is skipped, the field events have taken effect, and
(when no reset event fired) every pixel's position and velocity is
exactly as before the call. -/
theorem pause_skips_tick (s : GameField) (i : FrameInput)
    (hp : (((s.handleMouse i).handleReset i).handleSpace i).is_paused
      = true) :
    s.update i = ((s.handleMouse i).handleReset i).handleSpace i ∧
    (s.update i).gravity_fields
      = (((s.handleMouse i).handleReset i).handleSpace i).gravity_fields ∧
    (i.escape = false → (s.update i).pixels = s.pixels) := by
  have h1 : s.update i = ((s.handleMouse i).handleReset i).handleSpace i := by
    simp only [GameField.update]
    rw [if_pos hp]
  refine ⟨h1, by rw [h1], fun hesc => ?_⟩
  rw [h1, handleSpace_pixels, handleReset_of_escape_false _ _ hesc,
    handleMouse_pixels]

/-- Witness for C8: a paused state with no events keeps its (empty)
pixel list through `update`. -/
theorem pause_skips_tick_witness :
    (GameField.update ⟨[], [], true, ⟨1, ⟨10, 0, 5, 100⟩⟩⟩
      ⟨⟨0, 0⟩, false, false, false, false, false, false,
        ⟨1, ⟨10, 0, 5, 100⟩⟩, []⟩).pixels = ([] : List Pixel) := by
  have h := pause_skips_tick ⟨[], [], true, ⟨1, ⟨10, 0, 5, 100⟩⟩⟩
    ⟨⟨0, 0⟩, false, false, false, false, false, false,
      ⟨1, ⟨10, 0, 5, 100⟩⟩, []⟩
    (by simp [GameField.handleMouse, GameField.handleReset,
      GameField.handleSpace])
  exact h.2.2 rfl

theorem update_fields_of_escape_false (s : GameField) (i : FrameInput)
    (hesc : i.escape = false) :
    (s.update i).gravity_fields = (s.handleMouse i).gravity_fields := by
  simp only [GameField.update]
  rw [handleReset_of_escape_false _ _ hesc]
  split_ifs with h
  · rw [handleSpace_fields]
  · show (GameField.gravity_fields
      { ((s.handleMouse i).handleSpace i) with
        pixels := (((s.handleMouse i).handleSpace i)).pixels.map
          (tickPixel (((s.handleMouse i).handleSpace i)).config.phy
            (((s.handleMouse i).handleSpace i)).gravity_fields) })
      = (s.handleMouse i).gravity_fields
    rw [show (GameField.gravity_fields
      { ((s.handleMouse i).handleSpace i) with
        pixels := (((s.handleMouse i).handleSpace i)).pixels.map
          (tickPixel (((s.handleMouse i).handleSpace i)).config.phy
            (((s.handleMouse i).handleSpace i)).gravity_fields) })
      = ((s.handleMouse i).handleSpace i).gravity_fields from rfl]
    rw [handleSpace_fields]

theorem removeFirstField_length (fields : List GravityField) (q : Vector) :
    (removeFirstField fields q).length = fields.length ∨
    (removeFirstField fields q).length + 1 = fields.length := by
  cases henum : enumFind (fun e => decide (e.position.distance q ≤ 10))
      fields with
  | none => exact Or.inl (by rw [removeFirstField_eq_none _ _ henum])
  | some v =>
    obtain ⟨idx, f⟩ := v
    refine Or.inr ?_
    obtain ⟨g1, _, _⟩ := enumFind_eq_some _ fields idx f henum
    obtain ⟨hlt, _⟩ := List.getElem?_eq_some.mp g1
    rw [removeFirstField_eq_some _ _ _ _ henum]
    exact swapRemove_length fields idx hlt

/-- Claim C10: the three mouse handlers form an else-if chain: LMB
placement wins over RMB placement, which wins over MMB removal; outside
of reset, at most one field mutation happens per `update` call, so the
field list length changes by at most one. -/
theorem mouse_chain_exclusive (s : GameField) (i : FrameInput)
    (hesc : i.escape = false) :
    (i.lmb = true →
      (s.update i).gravity_fields = s.gravity_fields ++
        [GravityField.new i.mouse_pos s.config.phy.gravity_field_aoe
          s.config.phy.acceleration]) ∧
    (i.lmb = false → i.rmb = true →
      (s.update i).gravity_fields = s.gravity_fields ++
        [GravityField.new i.mouse_pos s.config.phy.gravity_field_aoe
          (-s.config.phy.acceleration)]) ∧
    (i.lmb = false → i.rmb = false → i.mmb = true →
      (s.update i).gravity_fields
        = removeFirstField s.gravity_fields i.mouse_pos) ∧
    (i.lmb = false → i.rmb = false → i.mmb = false →
      (s.update i).gravity_fields = s.gravity_fields) ∧
    ((s.update i).gravity_fields.length + 1 = s.gravity_fields.length ∨
     (s.update i).gravity_fields.length = s.gravity_fields.length ∨
     (s.update i).gravity_fields.length = s.gravity_fields.length + 1) := by
  have hu := update_fields_of_escape_false s i hesc
  refine ⟨fun hl => ?_, fun hl hr => ?_, fun hl hr hm => ?_,
    fun hl hr hm => ?_, ?_⟩
  · rw [hu]; simp [GameField.handleMouse, hl]
  · rw [hu]; simp [GameField.handleMouse, hl, hr]
  · rw [hu]; simp [GameField.handleMouse, hl, hr, hm]
  · rw [hu]; simp [GameField.handleMouse, hl, hr, hm]
  · rw [hu]
    unfold GameField.handleMouse
    split_ifs with h1 h2 h3
    · simp
    · simp
    · rcases removeFirstField_length s.gravity_fields i.mouse_pos with
        h | h
      · exact Or.inr (Or.inl h)
      · exact Or.inl h
    · simp

/-- Witness for C10: LMB press on an empty field list with the other
buttons also pressed places exactly the attracting field. -/
theorem mouse_chain_exclusive_witness :
    (GameField.update ⟨[], [], false, ⟨1, ⟨10, 0, 5, 100⟩⟩⟩
      ⟨⟨3, 4⟩, true, true, true, false, false, false,
        ⟨1, ⟨10, 0, 5, 100⟩⟩, []⟩).gravity_fields
      = [GravityField.new ⟨3, 4⟩ 100 5] := by
  have h := mouse_chain_exclusive ⟨[], [], false, ⟨1, ⟨10, 0, 5, 100⟩⟩⟩
    ⟨⟨3, 4⟩, true, true, true, false, false, false,
      ⟨1, ⟨10, 0, 5, 100⟩⟩, []⟩ rfl
  exact h.1 rfl

theorem scenario_dist : Vector.distance ⟨50, 50⟩ ⟨0, 50⟩ = 50 := by
  unfold Vector.distance
  rw [show ((0 : ℝ) - 50) ^ 2 + ((50 : ℝ) - 50) ^ 2 = 50 ^ 2 by norm_num,
    Real.sqrt_sq (by norm_num : (0 : ℝ) ≤ 50)]

theorem scenario_in_aoe :
    GravityField.in_aoe ⟨⟨50, 50⟩, 100, 5⟩ ⟨0, 50⟩ := by
  unfold GravityField.in_aoe
  show Vector.distance ⟨50, 50⟩ ⟨0, 50⟩ ≤ 100
  rw [scenario_dist]
  norm_num

theorem scenario_normalize : Vector.normalize ⟨50, 0⟩ = ⟨1, 0⟩ := by
  have hmag : Vector.magnitude ⟨50, 0⟩ = 50 := by
    unfold Vector.magnitude
    rw [show (50 : ℝ) * 50 + 0 * 0 = 50 ^ 2 by norm_num,
      Real.sqrt_sq (by norm_num : (0 : ℝ) ≤ 50)]
  rw [normalize_of_ne_zero _ (by rw [hmag]; norm_num), hmag]
  show Vector.mk (50 / 50) (0 / 50) = ⟨1, 0⟩
  norm_num

theorem scenario_tick :
    tickPixel ⟨10, 0, 5, 100⟩ [⟨⟨50, 50⟩, 100, 5⟩] ⟨⟨0, 50⟩, ⟨0, 0⟩⟩
      = ⟨⟨5, 50⟩, ⟨5, 0⟩⟩ := by
  unfold tickPixel netAcceleration
  dsimp only
  rw [List.foldl_cons, List.foldl_nil]
  unfold fieldContribution
  dsimp only
  rw [if_pos scenario_in_aoe]
  rw [show (Vector.mk 50 50 - Vector.mk 0 50) = ⟨50, 0⟩ by
    rw [Vector.sub_def]; norm_num]
  rw [scenario_normalize]
  rw [show (Vector.mk 0 0 + Vector.mk 1 0 * Vector.fromNum 5) = ⟨5, 0⟩ by
    rw [Vector.fromNum, Vector.mul_def, Vector.add_def]; norm_num]
  rw [show (Vector.mk 0 0 + Vector.mk 5 0 +
      (Vector.mk 0 0).normalize * Vector.fromNum (-1) * Vector.fromNum 0)
      = ⟨5, 0⟩ by
    rw [Vector.fromNum, Vector.fromNum, Vector.mul_def, Vector.mul_def,
      Vector.add_def, Vector.add_def]
    norm_num]
  rw [show (Vector.mk 5 0).limit 10 = ⟨5, 0⟩ by
    unfold Vector.limit fclamp
    norm_num]
  rw [show (Vector.mk 0 50 + Vector.mk 5 0) = ⟨5, 50⟩ by
    rw [Vector.add_def]; norm_num]

/-- Claim C1: the end-to-end one-tick scenario: friction `0`,
acceleration `5`, max velocity `10`, field area of effect `100`, one
attracting field at `(50,50)` with strength `5`, one pixel at `(0,50)`
with zero velocity; one `update` call with no input events yields pixel
velocity `(5,0)` and position `(5,50)`, leaving everything else
unchanged. -/
theorem one_tick_scenario :
    GameField.update
      ⟨[⟨⟨0, 50⟩, ⟨0, 0⟩⟩], [⟨⟨50, 50⟩, 100, 5⟩], false,
        ⟨1, ⟨10, 0, 5, 100⟩⟩⟩
      ⟨⟨0, 0⟩, false, false, false, false, false, false,
        ⟨1, ⟨10, 0, 5, 100⟩⟩, []⟩
    = ⟨[⟨⟨5, 50⟩, ⟨5, 0⟩⟩], [⟨⟨50, 50⟩, 100, 5⟩],
        false, ⟨1, ⟨10, 0, 5, 100⟩⟩⟩ := by
  simp only [GameField.update, GameField.handleMouse, GameField.handleReset,
    GameField.handleSpace]
  norm_num
  exact scenario_tick

end

end Pixen
